import Mathlib

/-!
Verification development for the numerical core of the Differential-Equation-Explorer
repository (Vue 3 + TypeScript).  The two pipelines embedded here are:

* the solver component (`EquationSolver.vue`): `parseEquation`, `rungeKutta4`,
  `solveEquation`;
* the visualization component: `parseEquation` (guarded variant),
  `generateSolutionCurve`, the trajectory merge of `addSolutionCurve`, and the slope-field
  sampling loop of `drawSlopeField`.

Modelling conventions.  JavaScript numbers are modelled as exact rationals; a
non-finite JavaScript value (NaN or ±Infinity) is modelled as `none` in `Option ℚ`,
written `JsNum`, and the JavaScript arithmetic used by the integrators propagates
`none` exactly as NaN/Infinity propagate through `+`, `*` and the finiteness checks
(`isFinite v` is `v.isSome`).  Rational arithmetic never overflows, so the only
sources of non-finite values in the model are the external evaluator and division by
zero, which matches every code path the theorems below depend on.  A call into the
external mathjs `evaluate` is modelled by an abstract `Evaluator`; a thrown
JavaScript exception is `Except.error` (so "the function never raises" is expressed
by a total return type without `Except`).  Numeric literals such as `0.05` and
`1e-10` denote the exact rationals written in the source text.
-/

/-- The whitespace characters matched by the regex class `\s` (the subset that can
occur in equation strings; the exotic Unicode members of `\s` are omitted). -/
def isSpaceChar (c : Char) : Bool :=
  c = ' ' || c = '\t' || c = '\n' || c = '\r'

/-- The characters of the literal `dy/dx` searched for by the preprocessing regex. -/
def dydxChars : List Char := "dy/dx".toList

/-- After the literal `dy/dx`, the regex continues with `\s*=\s*`: optional
whitespace, a mandatory `=`, optional whitespace.  Returns the remainder of the
input after the full match, or `none` when the `=` is missing.  (`=` is not a
whitespace character, so the greedy `\s*` needs no backtracking.) -/
def matchEqSign (cs : List Char) : Option (List Char) :=
  match cs.dropWhile isSpaceChar with
  | '=' :: rest => some (rest.dropWhile isSpaceChar)
  | _ => none

/-- `eqStr.replace(/dy\/dx\s*=\s*/, '')`: delete the first occurrence of the
marker, keep everything else. -/
def stripDyDx : List Char → List Char
  | [] => []
  | c :: cs =>
    if dydxChars.isPrefixOf (c :: cs) then
      match matchEqSign ((c :: cs).drop 5) with
      | some rest => rest
      | none => c :: stripDyDx cs
    else c :: stripDyDx cs

/-- The second replacement of `parseEquation`: every caret `^` becomes a double star `**`. -/
def expandCaret : List Char → List Char
  | [] => []
  | c :: cs => if c = '^' then '*' :: '*' :: expandCaret cs else c :: expandCaret cs

/-- The string preprocessing shared verbatim by the `parseEquation` of both components:
strip a leading `dy/dx =` marker, then rewrite `^` to `**`. -/
def preprocess (s : String) : String :=
  String.mk (expandCaret (stripDyDx s.toList))

/-- JavaScript `String.prototype.includes` (substring test), on character lists. -/
def charsInclude (pat : List Char) : List Char → Bool
  | [] => pat.isEmpty
  | c :: cs => pat.isPrefixOf (c :: cs) || charsInclude pat cs

/-- JavaScript `String.prototype.includes` on strings. -/
def strIncludes (s pat : String) : Bool := charsInclude pat.toList s.toList

/-- JavaScript `String.prototype.trim` (for the whitespace subset above). -/
def strTrim (s : String) : String :=
  String.mk (((s.toList.dropWhile isSpaceChar).reverse.dropWhile isSpaceChar).reverse)

/-- A JavaScript number: `some q` is a finite value, `none` collapses NaN and
±Infinity (the code only ever branches on `isFinite`, never on which non-finite
value occurred). -/
abbrev JsNum := Option ℚ

/-- JavaScript `+` on numbers: any non-finite operand yields a non-finite result
(finite + finite cannot overflow in the rational model). -/
def jadd : JsNum → JsNum → JsNum
  | some a, some b => some (a + b)
  | _, _ => none

/-- Multiplication by a finite constant, as in `h * f(x, y)`. -/
def jscale (c : ℚ) : JsNum → JsNum
  | some a => some (c * a)
  | none => none

/-- Division by a nonzero finite constant, as in `k1/2` and `(...)/6`. -/
def jdivBy (v : JsNum) (c : ℚ) : JsNum :=
  match v with
  | some a => some (a / c)
  | none => none

/-- The external mathjs `evaluate`, abstracted: given the processed expression text
and the bindings of `x` (always finite at every call site) and `y`, it either
raises (`Except.error` with the message) or returns a number, possibly non-finite.
The x-binding stays `ℚ` because every caller passes `x0 + k·h`, which is finite in
exact arithmetic. -/
def Evaluator : Type := String → ℚ → JsNum → Except String JsNum

/-- Decidable equality of evaluator outcomes (needed only so that concrete runs
of the embedded functions can be checked by `decide`). -/
instance exceptDecEq {ε α : Type} [DecidableEq ε] [DecidableEq α] :
    DecidableEq (Except ε α) := fun a b =>
  match a, b with
  | Except.error e1, Except.error e2 =>
    if h : e1 = e2 then isTrue (by rw [h]) else isFalse (by intro hc; injection hc; exact h (by assumption))
  | Except.error _, Except.ok _ => isFalse (by intro hc; injection hc)
  | Except.ok _, Except.error _ => isFalse (by intro hc; injection hc)
  | Except.ok v1, Except.ok v2 =>
    if h : v1 = v2 then isTrue (by rw [h]) else isFalse (by intro hc; injection hc; exact h (by assumption))

/-- The singularity threshold `1e-10` from the visualization `parseEquation`. -/
def numEps : ℚ := 1e-10

/-- The division marker `/y` searched for by the singularity guard. -/
def slashY : String := "/y"

/-- The division marker `/x` searched for by the singularity guard. -/
def slashX : String := "/x"

/-- `parseEquation` of the visualization component (`src/unnamed/part_001`,
lines 418–441): preprocess the string, then return a closure that short-circuits
to slope 0 near a textual `/y` or `/x` singularity, evaluates otherwise, maps a
non-finite result to 0, and maps a thrown evaluator exception to 0.  The outer
`try`/`catch` of the source wraps only the two string replacements, which cannot
throw, so it adds no behaviour to the model.  The return type of the closure `ℚ` (no
`Except`, no `Option`) expresses that it never raises and always produces a
finite number. -/
def parseEquationViz (ev : Evaluator) (eqStr : String) : ℚ → ℚ → ℚ :=
  let processedEq := preprocess eqStr
  fun x y =>
    if |y| < numEps ∧ strIncludes processedEq slashY = true then 0
    else if |x| < numEps ∧ strIncludes processedEq slashX = true then 0
    else
      match ev processedEq x (some y) with
      | Except.ok (some r) => r
      | Except.ok none => 0
      | Except.error _ => 0

/-- `parseEquation` of the solver component (`EquationSolver.vue`, lines 49–62):
the returned closure simply calls the evaluator on the processed expression and
forwards its outcome — no singularity guard, no `catch` around `evaluate`, no
finiteness check.  (The `try` of the source wraps only the string replacements, which
cannot throw, so the `throw new Error(...)` branch is unreachable.) -/
def parseEquationSolver (ev : Evaluator) (eqStr : String) : ℚ → JsNum → Except String JsNum :=
  let processedEq := preprocess eqStr
  fun x y => ev processedEq x y

/-- The body of one iteration of the solver `rungeKutta4` loop: the four stages
`k1 = h*f(x, y)`, `k2 = h*f(x + h/2, y + k1/2)`, `k3 = h*f(x + h/2, y + k2/2)`,
`k4 = h*f(x + h, y + k3)` and the state update
`y = y + (k1 + 2*k2 + 2*k3 + k4)/6; x = x + h`.  A raise at any stage aborts the
whole call, as a thrown JavaScript exception would; non-finite stage values
propagate unchecked through the arithmetic into the new `y`. -/
def rk4Step (f : ℚ → JsNum → Except String JsNum) (h x : ℚ) (y : JsNum) :
    Except String (ℚ × JsNum) :=
  match f x y with
  | Except.error m => Except.error m
  | Except.ok v1 =>
    let k1 := jscale h v1
    match f (x + h / 2) (jadd y (jdivBy k1 2)) with
    | Except.error m => Except.error m
    | Except.ok v2 =>
      let k2 := jscale h v2
      match f (x + h / 2) (jadd y (jdivBy k2 2)) with
      | Except.error m => Except.error m
      | Except.ok v3 =>
        let k3 := jscale h v3
        match f (x + h) (jadd y k3) with
        | Except.error m => Except.error m
        | Except.ok v4 =>
          let k4 := jscale h v4
          Except.ok (x + h,
            jadd y (jdivBy (jadd (jadd (jadd k1 (jscale 2 k2)) (jscale 2 k3)) k4) 6))

/-- The `while (x < xEnd)` loop of the solver `rungeKutta4`, with an explicit
iteration budget.  Every generated step is pushed unconditionally; a raise
propagates out of the whole loop. -/
def rk4Loop (f : ℚ → JsNum → Except String JsNum) (h xEnd : ℚ) :
    ℕ → ℚ → JsNum → Except String (List (ℚ × JsNum))
  | 0, _, _ => Except.ok []
  | n + 1, x, y =>
    if x < xEnd then
      match rk4Step f h x y with
      | Except.error m => Except.error m
      | Except.ok (x2, y2) =>
        match rk4Loop f h xEnd n x2 y2 with
        | Except.error m => Except.error m
        | Except.ok rest => Except.ok ((x2, y2) :: rest)
    else Except.ok []

/-- Iteration budget for `rk4Loop`: one more than the number of steps the
`while (x < xEnd)` loop performs when `h > 0`.  (For `h ≤ 0` with `x0 < xEnd` the
JavaScript loop does not terminate; the model is only claimed faithful for the
terminating cases, which is all the theorems use.) -/
def rk4Fuel (x0 h xEnd : ℚ) : ℕ := ⌈(xEnd - x0) / h⌉₊ + 1

/-- `rungeKutta4` of the solver component (`EquationSolver.vue`, lines 29–46):
seed point first, then the loop; a raise anywhere surfaces to the caller. -/
def rungeKutta4 (f : ℚ → JsNum → Except String JsNum) (x0 : ℚ) (y0 : JsNum) (h xEnd : ℚ) :
    Except String (List (ℚ × JsNum)) :=
  match rk4Loop f h xEnd (rk4Fuel x0 h xEnd) x0 y0 with
  | Except.ok pts => Except.ok ((x0, y0) :: pts)
  | Except.error m => Except.error m

/-- One entry of the solver step log (`SolutionStep` of `EquationSolver.vue`). -/
structure SolutionStep where
  step : String
  description : String
  result : Option String
deriving DecidableEq

/-- The mutable state of the solver session that `solveEquation` updates:
`solution` (the trajectory table) and `solutionSteps` (the step log). -/
structure SolverState where
  solution : List (ℚ × JsNum)
  solutionSteps : List SolutionStep
deriving DecidableEq

/-- Rendering of a number into the step log (stands in for JavaScript number
formatting; no claim depends on the exact digits). -/
def ratText (q : ℚ) : String := toString q

def stepIdx1 : String := "1"

def stepIdx2 : String := "2"

def stepIdx3 : String := "3"

def stepIdx4 : String := "4"

def stepDescr1 : String := "解析微分方程"

def stepDescr2 : String := "设置初始条件"

def stepDescr3 : String := "使用四阶Runge-Kutta数值方法求解"

def stepDescr4 : String := "数值解计算完成"

def stepRes1Pre : String := "原方程: "

def stepRes2Pre : String := "初始条件: y("

def stepRes2Mid : String := ") = "

def stepRes3Pre : String := "步长: h = "

def stepRes3Mid : String := ", 求解区间: ["

def stepRes3Sep : String := ", "

def stepRes3Post : String := "]"

def stepRes4Pre : String := "共计算了 "

def stepRes4Post : String := " 个数据点"

def errIdx : String := "错误"

def errDescr : String := "求解失败"

def emptyStr : String := ""

/-- The four ordered step-log entries of a successful solve. -/
def solveSteps (eq : String) (x0 y0 h xEnd : ℚ) (n : ℕ) : List SolutionStep :=
  [{ step := stepIdx1, description := stepDescr1, result := some (stepRes1Pre ++ eq) },
   { step := stepIdx2, description := stepDescr2,
     result := some (stepRes2Pre ++ ratText x0 ++ stepRes2Mid ++ ratText y0) },
   { step := stepIdx3, description := stepDescr3,
     result := some (stepRes3Pre ++ ratText h ++ stepRes3Mid ++ ratText x0 ++
       stepRes3Sep ++ ratText xEnd ++ stepRes3Post) },
   { step := stepIdx4, description := stepDescr4,
     result := some (stepRes4Pre ++ toString n ++ stepRes4Post) }]

/-- The single terminal step-log entry written by the `catch` branch. -/
def errorStep (msg : String) : SolutionStep :=
  { step := errIdx, description := errDescr, result := some msg }

/-- `solveEquation` of the solver component (`EquationSolver.vue`, lines 64–110)
as a state transformer.  Empty (after trim) equation: no-op.  Otherwise compile
and integrate; on success `solution` is replaced by the new points and the step
log holds the four descriptive entries; when the evaluator raises during
integration, the `catch` branch replaces the step log by the single error entry
and — crucially — leaves `solution` untouched (the assignment
`solution.value = points` is never reached).  `isLoading` is presentation-only
and omitted. -/
def solveEquation (ev : Evaluator) (eq : String) (x0 y0 h xEnd : ℚ) (st : SolverState) :
    SolverState :=
  if strTrim eq = emptyStr then st
  else
    match rungeKutta4 (parseEquationSolver ev eq) x0 (some y0) h xEnd with
    | Except.ok points =>
        { solution := points, solutionSteps := solveSteps eq x0 y0 h xEnd points.length }
    | Except.error msg =>
        { solution := st.solution, solutionSteps := [errorStep msg] }

/-- The configured rectangle (`xRange`, `yRange` of the visualization component). -/
structure Bounds where
  xMin : ℚ
  xMax : ℚ
  yMin : ℚ
  yMax : ℚ
deriving DecidableEq

/-- The escape test of `generateSolutionCurve`:
`x < xRange[0] || x > xRange[1] || y < yRange[0] || y > yRange[1]`. -/
def outOfRect (b : Bounds) (x y : ℚ) : Prop :=
  x < b.xMin ∨ x > b.xMax ∨ y < b.yMin ∨ y > b.yMax

instance outOfRectDec (b : Bounds) (x y : ℚ) : Decidable (outOfRect b x y) := by
  unfold outOfRect; infer_instance

/-- Membership in the closed configured rectangle (negation of the escape test). -/
def inRect (b : Bounds) (x y : ℚ) : Prop := ¬ outOfRect b x y

/-- One Runge-Kutta step of the visualization integrator: the four stages, the
finiteness check `!isFinite(k1) || !isFinite(k2) || !isFinite(k3) || !isFinite(k4)`
(`none` here meaning that check fired and the loop breaks), and the state update.
Stopping at the first non-finite stage is observationally faithful: in the source
the later stages are still computed from NaN inputs, but their values are dead
because the check breaks the loop regardless.  The subsequent source check
`!isFinite(x) || !isFinite(y)` cannot fire in the model, because `x + h` and the
`y` update are rational arithmetic on finite stage values. -/
def rkStep (f : ℚ → ℚ → JsNum) (h x y : ℚ) : Option (ℚ × ℚ) :=
  match f x y with
  | none => none
  | some v1 =>
    let k1 := h * v1
    match f (x + h / 2) (y + k1 / 2) with
    | none => none
    | some v2 =>
      let k2 := h * v2
      match f (x + h / 2) (y + k2 / 2) with
      | none => none
      | some v3 =>
        let k3 := h * v3
        match f (x + h) (y + k3) with
        | none => none
        | some v4 =>
          let k4 := h * v4
          some (x + h, y + (k1 + 2 * k2 + 2 * k3 + k4) / 6)

/-- The `for (let i = 0; i < maxSteps; i++)` loop of `generateSolutionCurve`:
bounds check first (`break` without emitting anything), then one Runge-Kutta
step (`break` on a non-finite stage), then push the new point. -/
def genLoop (f : ℚ → ℚ → JsNum) (b : Bounds) (h : ℚ) : ℕ → ℚ → ℚ → List (ℚ × ℚ)
  | 0, _, _ => []
  | n + 1, x, y =>
    if outOfRect b x y then []
    else
      match rkStep f h x y with
      | none => []
      | some (x2, y2) => (x2, y2) :: genLoop f b h n x2 y2

/-- `maxSteps = 200` of `generateSolutionCurve`. -/
def maxSteps : ℕ := 200

/-- `generateSolutionCurve` of the visualization component
(`src/unnamed/part_001`, lines 444–476): seed point first, step size
`0.05 * direction`, then up to `maxSteps` loop iterations. -/
def generateSolutionCurve (f : ℚ → ℚ → JsNum) (x0 y0 direction : ℚ) (b : Bounds) :
    List (ℚ × ℚ) :=
  (x0, y0) :: genLoop f b ((0.05 : ℚ) * direction) maxSteps x0 y0

/-- The trajectory merge performed by `addSolutionCurve`
(`src/unnamed/part_001`, lines 632–652):
`[...backwardPoints.reverse().slice(0, -1), ...forwardPoints]` — the backward
run reversed, its trailing seed duplicate dropped, then the forward run.  The id
counter and palette colour assignment are presentation bookkeeping and are not
modelled. -/
def addSolutionCurvePoints (f : ℚ → ℚ → JsNum) (x0 y0 : ℚ) (b : Bounds) : List (ℚ × ℚ) :=
  let forwardPoints := generateSolutionCurve f x0 y0 1 b
  let backwardPoints := generateSolutionCurve f x0 y0 (-1) b
  backwardPoints.reverse.dropLast ++ forwardPoints

/-- One axis of the sampling loops of `drawSlopeField`:
`for (let v = lo; v <= hi; v += step)`.  The iteration budget `n` is set by the
caller to exceed the exact-arithmetic iteration count. -/
def axisSamples (hi step : ℚ) : ℕ → ℚ → List ℚ
  | 0, _ => []
  | n + 1, v => if v ≤ hi then v :: axisSamples hi step n (v + step) else []

/-- The field-sampling core of `drawSlopeField` (`src/unnamed/part_001`,
lines 549–574), the operation the spec calls `sampleField`: the nested inclusive
loops over the grid with spacing `(max - min) / gridDensity` per axis, emitting
`(x, y, slope)` and skipping (`continue`) any point whose slope is non-finite.
The budget `gridDensity + 2` strictly exceeds the `gridDensity + 1` values each
exact-arithmetic axis loop visits. -/
def sampleField (f : ℚ → ℚ → JsNum) (b : Bounds) (gridDensity : ℕ) : List (ℚ × ℚ × ℚ) :=
  let stepX := (b.xMax - b.xMin) / (gridDensity : ℚ)
  let stepY := (b.yMax - b.yMin) / (gridDensity : ℚ)
  let xs := axisSamples b.xMax stepX (gridDensity + 2) b.xMin
  let ys := axisSamples b.yMax stepY (gridDensity + 2) b.yMin
  xs.flatMap fun x => ys.filterMap fun y => (f x y).map fun s => (x, y, s)

/-- Comparison definition following the words of the spec for gap-free sampling: every
grid point emits a triple, no skipping.  Used only to state that the skip branch
is unreachable for the compiled visualization slope function. -/
def sampleFieldNoGaps (g : ℚ → ℚ → ℚ) (b : Bounds) (gridDensity : ℕ) : List (ℚ × ℚ × ℚ) :=
  let stepX := (b.xMax - b.xMin) / (gridDensity : ℚ)
  let stepY := (b.yMax - b.yMin) / (gridDensity : ℚ)
  let xs := axisSamples b.xMax stepX (gridDensity + 2) b.xMin
  let ys := axisSamples b.yMax stepY (gridDensity + 2) b.yMin
  xs.flatMap fun x => ys.map fun y => (x, y, g x y)

/-- The default configured rectangle of the visualization component:
`xRange = [-4, 4]`, `yRange = [-3, 3]`. -/
def defaultBounds : Bounds := { xMin := -4, xMax := 4, yMin := -3, yMax := 3 }

/-- The constant-zero slope function (what `dy/dx = 0` compiles to), used as a
concrete slope function in counterexamples. -/
def zeroSlope : ℚ → ℚ → JsNum := fun _ _ => some 0

/-- The constant-zero slope function in the fallible solver shape. -/
def zeroSlopeSolver : ℚ → JsNum → Except String JsNum := fun _ _ => Except.ok (some 0)

/-- The message with which mathjs rejects the truncated expression `x +`. -/
def parseErrMsg : String := "Unexpected end of expression"

/-- An evaluator that raises on every query, as mathjs behaves on the
malformed expression `x +`, whose parse error is thrown by `evaluate` itself. -/
def evalRaise : Evaluator := fun _ _ _ => Except.error parseErrMsg

/-- An evaluator behaving as mathjs does on the expression `y/x`: ordinary
division, with division by zero producing a non-finite value (±Infinity or NaN),
never a raise. -/
def evalYdivX : Evaluator := fun _ x y =>
  if x = 0 then Except.ok none else Except.ok (jdivBy y x)

/-- An evaluator behaving as mathjs does on the expression `x + y`. -/
def evalAddXY : Evaluator := fun _ x y => Except.ok (jadd (some x) y)

def eqMalformed : String := "dy/dx = x +"

def eqYdivX : String := "dy/dx = y/x"

def eqAddXY : String := "dy/dx = x + y"

/-- The compiled visualization slope function for `dy/dx = x + y`, lifted to the
`JsNum`-valued integrator shape. -/
def addSlope : ℚ → ℚ → JsNum := fun x y => some (parseEquationViz evalAddXY eqAddXY x y)

/-- A solver-session state holding a previously computed one-point trajectory. -/
def stPrev : SolverState := { solution := [(0, some 1)], solutionSteps := [] }


/-- The loop of `generateSolutionCurve` performs at most as many iterations as
its budget, and each iteration pushes exactly one point. -/
theorem genLoop_length_le (f : ℚ → ℚ → JsNum) (b : Bounds) (h : ℚ) :
    ∀ (n : ℕ) (x y : ℚ), (genLoop f b h n x y).length ≤ n := by
  intro n
  induction n with
  | zero => intro x y; simp [genLoop]
  | succ n ih =>
    intro x y
    by_cases hb : outOfRect b x y
    · simp [genLoop, hb]
    · cases hs : rkStep f h x y with
      | none => simp [genLoop, hb, hs]
      | some p =>
        obtain ⟨x2, y2⟩ := p
        have := ih x2 y2
        simp [genLoop, hb, hs]
        omega

/-- Unfolding lemma: an iteration whose entry bounds check fires emits nothing. -/
theorem genLoop_succ_exit (f : ℚ → ℚ → JsNum) (b : Bounds) (h : ℚ) (n : ℕ) (x y : ℚ)
    (hb : outOfRect b x y) : genLoop f b h (n + 1) x y = [] := by
  simp [genLoop, hb]

/-- Unfolding lemma: an iteration that passes the bounds check and whose
Runge-Kutta stages are all finite pushes the stepped point and continues. -/
theorem genLoop_succ_enter (f : ℚ → ℚ → JsNum) (b : Bounds) (h : ℚ) (n : ℕ) (x y x2 y2 : ℚ)
    (hb : ¬ outOfRect b x y) (hs : rkStep f h x y = some (x2, y2)) :
    genLoop f b h (n + 1) x y = (x2, y2) :: genLoop f b h n x2 y2 := by
  simp [genLoop, hb, hs]

/-- If the loop emits at least one point, its entry bounds check passed. -/
theorem genLoop_ne_nil_not_out (f : ℚ → ℚ → JsNum) (b : Bounds) (h : ℚ) (n : ℕ) (x y : ℚ)
    (hne : genLoop f b h n x y ≠ []) : ¬ outOfRect b x y := by
  cases n with
  | zero => simp [genLoop] at hne
  | succ n =>
    by_cases hb : outOfRect b x y
    · simp [genLoop, hb] at hne
    · exact hb

/-- All points the loop emits, except possibly the final one, pass the bounds
check of the following iteration. -/
theorem genLoop_dropLast_inRect (f : ℚ → ℚ → JsNum) (b : Bounds) (h : ℚ) :
    ∀ (n : ℕ) (x y : ℚ), ∀ p ∈ (genLoop f b h n x y).dropLast,
      ¬ outOfRect b p.1 p.2 := by
  intro n
  induction n with
  | zero => intro x y p hp; simp [genLoop] at hp
  | succ n ih =>
    intro x y p hp
    by_cases hb : outOfRect b x y
    · rw [genLoop_succ_exit f b h n x y hb] at hp
      simp at hp
    · cases hs : rkStep f h x y with
      | none => simp [genLoop, hb, hs] at hp
      | some q =>
        obtain ⟨x2, y2⟩ := q
        rw [genLoop_succ_enter f b h n x y x2 y2 hb hs] at hp
        by_cases hnil : genLoop f b h n x2 y2 = []
        · rw [hnil] at hp
          simp at hp
        · rw [List.dropLast_cons_of_ne_nil hnil] at hp
          rcases List.mem_cons.mp hp with hput | hmem
          · subst hput
            exact genLoop_ne_nil_not_out f b h n x2 y2 hnil
          · exact ih x2 y2 p hmem

/-- **C4** The bounded-box integration always terminates (the embedding is a
structurally recursive function of the `maxSteps` budget) and its trajectory
holds the seed plus at most `maxSteps` generated points, i.e. at most
`maxSteps + 1 = 201` points, for every slope function, seed, direction and
rectangle. -/
theorem generateSolutionCurve_length_le_maxSteps_succ
    (f : ℚ → ℚ → JsNum) (x0 y0 direction : ℚ) (b : Bounds) :
    (generateSolutionCurve f x0 y0 direction b).length ≤ maxSteps + 1 := by
  have := genLoop_length_le f b ((0.05 : ℚ) * direction) maxSteps x0 y0
  simp only [generateSolutionCurve, List.length_cons]
  omega

/-- **C2** (amended) In bounded-box mode every point of the returned trajectory
except possibly the last lies within the configured rectangle; the out-of-range
successor point, when one is produced, is emitted as the final point and the run
stops only at the following bounds check. -/
theorem generateSolutionCurve_dropLast_in_rect
    (f : ℚ → ℚ → JsNum) (x0 y0 direction : ℚ) (b : Bounds) :
    ∀ p ∈ (generateSolutionCurve f x0 y0 direction b).dropLast,
      inRect b p.1 p.2 := by
  intro p hp
  unfold generateSolutionCurve at hp
  by_cases hnil : genLoop f b ((0.05 : ℚ) * direction) maxSteps x0 y0 = []
  · rw [hnil] at hp
    simp at hp
  · rw [List.dropLast_cons_of_ne_nil hnil] at hp
    rcases List.mem_cons.mp hp with hput | hmem
    · subst hput
      exact genLoop_ne_nil_not_out f b ((0.05 : ℚ) * direction) maxSteps x0 y0 hnil
    · exact genLoop_dropLast_inRect f b ((0.05 : ℚ) * direction) maxSteps x0 y0 p hmem

/-- Under the zero slope function every Runge-Kutta step moves `x` by `h` and
leaves `y` unchanged. -/
theorem rkStep_zeroSlope (h x y : ℚ) : rkStep zeroSlope h x y = some (x + h, y) := by
  unfold rkStep zeroSlope
  norm_num

/-- The concrete run behind the C2 counterexample: from the in-range seed
`(3.99, 0)` the zero-field forward run emits the out-of-range point `(4.04, 0)`
and then stops. -/
theorem trajNearEdge : generateSolutionCurve zeroSlope (399/100) 0 1 defaultBounds =
    [(399/100, 0), (101/25, 0)] := by
  have h1 : ¬ outOfRect defaultBounds (399/100) 0 := by
    unfold outOfRect defaultBounds
    push_neg
    norm_num
  have h2 : rkStep zeroSlope ((0.05 : ℚ) * 1) (399/100) 0 = some (101/25, 0) := by
    rw [rkStep_zeroSlope]
    norm_num
  have h3 : outOfRect defaultBounds (101/25) 0 := by
    unfold outOfRect defaultBounds
    norm_num
  unfold generateSolutionCurve maxSteps
  rw [show (200 : ℕ) = 199 + 1 from rfl,
      genLoop_succ_enter zeroSlope defaultBounds ((0.05 : ℚ) * 1) 199 (399/100) 0 (101/25) 0 h1 h2,
      show (199 : ℕ) = 198 + 1 from rfl,
      genLoop_succ_exit zeroSlope defaultBounds ((0.05 : ℚ) * 1) 198 (101/25) 0 h3]

/-- **C2** (counterexample) The claim that every point of a bounded-box
trajectory lies within the configured rectangle is false at a concrete input:
the forward zero-field run from `(3.99, 0)` contains the point `(4.04, 0)`,
outside the default rectangle. -/
theorem generateSolutionCurve_emits_out_of_range_point :
    ¬ (∀ p ∈ generateSolutionCurve zeroSlope (399/100) 0 1 defaultBounds,
        inRect defaultBounds p.1 p.2) := by
  intro hall
  have hmem : ((101/25 : ℚ), (0 : ℚ)) ∈
      generateSolutionCurve zeroSlope (399/100) 0 1 defaultBounds := by
    rw [trajNearEdge]
    simp
  have := hall _ hmem
  unfold inRect outOfRect defaultBounds at this
  push_neg at this
  have h4 := this.2.1
  norm_num at h4

/-- **C2** (witness) The amended theorem applied to the concrete near-edge run:
its first point, the only one in `dropLast`, is inside the rectangle. -/
theorem generateSolutionCurve_dropLast_in_rect_inst :
    inRect defaultBounds (399/100) 0 :=
  generateSolutionCurve_dropLast_in_rect zeroSlope (399/100) 0 1 defaultBounds
    ((399/100 : ℚ), (0 : ℚ))
    (by rw [trajNearEdge]; simp)

/-- **C8** (amended) A seed lying exactly on an edge of the rectangle is inside
the closed rectangle (the escape test uses strict inequalities), so the
integration does not stop at the seed: it performs one more Runge-Kutta step,
emits the resulting out-of-range point, and terminates at the following bounds
check — the trajectory is the seed plus that one point, not the seed alone. -/
theorem generateSolutionCurve_edge_one_step
    (f : ℚ → ℚ → JsNum) (x0 y0 direction : ℚ) (b : Bounds) (x1 y1 : ℚ)
    (hin : ¬ outOfRect b x0 y0)
    (hstep : rkStep f ((0.05 : ℚ) * direction) x0 y0 = some (x1, y1))
    (hout : outOfRect b x1 y1) :
    generateSolutionCurve f x0 y0 direction b = [(x0, y0), (x1, y1)] := by
  unfold generateSolutionCurve maxSteps
  rw [show (200 : ℕ) = 199 + 1 from rfl,
      genLoop_succ_enter f b ((0.05 : ℚ) * direction) 199 x0 y0 x1 y1 hin hstep,
      show (199 : ℕ) = 198 + 1 from rfl,
      genLoop_succ_exit f b ((0.05 : ℚ) * direction) 198 x1 y1 hout]

/-- **C8** (witness) The amended theorem at a concrete input: from the seed
`(4, 0)` on the right edge of the default rectangle, under the zero slope
function and forward direction, the trajectory is the seed followed by the
out-of-range point `(4.05, 0)`. -/
theorem generateSolutionCurve_edge_one_step_inst :
    generateSolutionCurve zeroSlope 4 0 1 defaultBounds = [(4, 0), (81/20, 0)] :=
  generateSolutionCurve_edge_one_step zeroSlope 4 0 1 defaultBounds (81/20) 0
    (by unfold outOfRect defaultBounds; push_neg; norm_num)
    (by rw [rkStep_zeroSlope]; norm_num)
    (by unfold outOfRect defaultBounds; norm_num)

/-- **C8** (counterexample) The claim that an integration seeded exactly on an
edge with the field carrying it outward returns the seed alone is false: the
concrete edge run from `(4, 0)` returns a two-point trajectory. -/
theorem generateSolutionCurve_edge_not_seed_alone :
    generateSolutionCurve zeroSlope 4 0 1 defaultBounds ≠ [(4, 0)] := by
  have h1 : generateSolutionCurve zeroSlope 4 0 1 defaultBounds = [(4, 0), (81/20, 0)] := by
    unfold generateSolutionCurve maxSteps
    rw [show (200 : ℕ) = 199 + 1 from rfl,
        genLoop_succ_enter zeroSlope defaultBounds ((0.05 : ℚ) * 1) 199 4 0 (81/20) 0
          (by unfold outOfRect defaultBounds; push_neg; norm_num)
          (by rw [rkStep_zeroSlope]; norm_num),
        show (199 : ℕ) = 198 + 1 from rfl,
        genLoop_succ_exit zeroSlope defaultBounds ((0.05 : ℚ) * 1) 198 (81/20) 0
          (by unfold outOfRect defaultBounds; norm_num)]
  rw [h1]
  simp

/-- A successful Runge-Kutta step of the visualization integrator always moves
the x-coordinate by exactly `h`. -/
theorem rkStep_fst (f : ℚ → ℚ → JsNum) (h x y x2 y2 : ℚ)
    (hs : rkStep f h x y = some (x2, y2)) : x2 = x + h := by
  unfold rkStep at hs
  cases hv1 : f x y with
  | none => rw [hv1] at hs; exact Option.noConfusion hs
  | some v1 =>
    rw [hv1] at hs
    dsimp only at hs
    cases hv2 : f (x + h / 2) (y + h * v1 / 2) with
    | none => rw [hv2] at hs; exact Option.noConfusion hs
    | some v2 =>
      rw [hv2] at hs
      dsimp only at hs
      cases hv3 : f (x + h / 2) (y + h * v2 / 2) with
      | none => rw [hv3] at hs; exact Option.noConfusion hs
      | some v3 =>
        rw [hv3] at hs
        dsimp only at hs
        cases hv4 : f (x + h) (y + h * v3) with
        | none => rw [hv4] at hs; exact Option.noConfusion hs
        | some v4 =>
          rw [hv4] at hs
          dsimp only at hs
          simp only [Option.some.injEq, Prod.mk.injEq] at hs
          exact hs.1.symm

/-- Every point the loop of `generateSolutionCurve` emits has first coordinate
`x + k·h` for some iteration count `k ≥ 1` — the x-coordinate advances by
exactly `h` at every accepted step. -/
theorem genLoop_mem_fst (f : ℚ → ℚ → JsNum) (b : Bounds) (h : ℚ) :
    ∀ (n : ℕ) (x y : ℚ), ∀ p ∈ genLoop f b h n x y,
      ∃ k : ℕ, p.1 = x + ((k : ℚ) + 1) * h := by
  intro n
  induction n with
  | zero => intro x y p hp; simp [genLoop] at hp
  | succ n ih =>
    intro x y p hp
    by_cases hb : outOfRect b x y
    · rw [genLoop_succ_exit f b h n x y hb] at hp
      simp at hp
    · cases hs : rkStep f h x y with
      | none => simp [genLoop, hb, hs] at hp
      | some q =>
        obtain ⟨x2, y2⟩ := q
        have hx2 : x2 = x + h := rkStep_fst f h x y x2 y2 hs
        rw [genLoop_succ_enter f b h n x y x2 y2 hb hs] at hp
        rcases List.mem_cons.mp hp with hput | hmem
        · subst hput
          exact ⟨0, by rw [hx2]; ring⟩
        · obtain ⟨k, hk⟩ := ih x2 y2 p hmem
          exact ⟨k + 1, by rw [hk, hx2]; push_cast; ring⟩

/-- With a nonzero step size, the seed never reappears among the loop-emitted
points: their x-coordinates all differ from the seed x-coordinate. -/
theorem genLoop_seed_not_mem (f : ℚ → ℚ → JsNum) (b : Bounds) (h : ℚ) (hne : h ≠ 0)
    (n : ℕ) (x0 y0 : ℚ) : (x0, y0) ∉ genLoop f b h n x0 y0 := by
  intro hmem
  obtain ⟨k, hk⟩ := genLoop_mem_fst f b h n x0 y0 (x0, y0) hmem
  simp only at hk
  have hzero : ((k : ℚ) + 1) * h = 0 := by linarith
  rcases mul_eq_zero.mp hzero with h1 | h2
  · have hpos : (0 : ℚ) < (k : ℚ) + 1 := by positivity
    linarith
  · exact hne h2

/-- **C6** For every seed strictly inside the configured rectangle (and in fact
for every seed), the merged trajectory built by `addSolutionCurve` — backward
run reversed with its seed duplicate dropped, then the forward run — contains
the seed point exactly once, at the index equal to the length of the trimmed
backward run; and every individual integration run starts with the seed point. -/
theorem addSolutionCurve_seed_once_at_junction
    (f : ℚ → ℚ → JsNum) (x0 y0 : ℚ) (b : Bounds)
    (hx1 : b.xMin < x0) (hx2 : x0 < b.xMax) (hy1 : b.yMin < y0) (hy2 : y0 < b.yMax) :
    (addSolutionCurvePoints f x0 y0 b).count (x0, y0) = 1 ∧
    (addSolutionCurvePoints f x0 y0 b)[
      ((generateSolutionCurve f x0 y0 (-1) b).reverse.dropLast).length]? = some (x0, y0) ∧
    (∀ direction : ℚ,
      (generateSolutionCurve f x0 y0 direction b).head? = some (x0, y0)) := by
  have hfm := genLoop_seed_not_mem f b ((0.05 : ℚ) * 1) (by norm_num) maxSteps x0 y0
  have hbm := genLoop_seed_not_mem f b ((0.05 : ℚ) * (-1)) (by norm_num) maxSteps x0 y0
  have hshape : addSolutionCurvePoints f x0 y0 b =
      (genLoop f b ((0.05 : ℚ) * (-1)) maxSteps x0 y0).reverse ++
        ((x0, y0) :: genLoop f b ((0.05 : ℚ) * 1) maxSteps x0 y0) := by
    unfold addSolutionCurvePoints generateSolutionCurve
    dsimp only
    rw [List.reverse_cons, List.dropLast_concat]
  have hidx : ((generateSolutionCurve f x0 y0 (-1) b).reverse.dropLast).length =
      ((genLoop f b ((0.05 : ℚ) * (-1)) maxSteps x0 y0).reverse).length := by
    unfold generateSolutionCurve
    rw [List.reverse_cons, List.dropLast_concat]
  refine ⟨?_, ?_, ?_⟩
  · rw [hshape, List.count_append, List.count_reverse, List.count_cons_self,
      List.count_eq_zero.mpr hbm, List.count_eq_zero.mpr hfm]
  · rw [hshape, hidx, List.getElem?_append_right (le_refl _)]
    simp
  · intro direction
    rfl

/-- **C6** (witness) The theorem applied to the seed `(0, 0)`, strictly inside
the default rectangle, under the zero slope function. -/
theorem addSolutionCurve_seed_once_at_junction_inst :
    (addSolutionCurvePoints zeroSlope 0 0 defaultBounds).count (0, 0) = 1 ∧
    (addSolutionCurvePoints zeroSlope 0 0 defaultBounds)[
      ((generateSolutionCurve zeroSlope 0 0 (-1) defaultBounds).reverse.dropLast).length]? =
        some (0, 0) ∧
    (∀ direction : ℚ,
      (generateSolutionCurve zeroSlope 0 0 direction defaultBounds).head? = some (0, 0)) :=
  addSolutionCurve_seed_once_at_junction zeroSlope 0 0 defaultBounds
    (by unfold defaultBounds; norm_num) (by unfold defaultBounds; norm_num)
    (by unfold defaultBounds; norm_num) (by unfold defaultBounds; norm_num)

/-- **C1** (amended) The compiled slope function of the visualization-mode
compiler never raises (it is a total function into the finite numbers) and maps
every evaluator failure — a raise with any message, or a non-finite result — to
the sentinel slope 0.  The solver-mode compiled function does not have this
property: it forwards the evaluator outcome unchanged (see the counterexample). -/
theorem parseEquationViz_maps_failure_to_zero (ev : Evaluator) (eqStr : String) (x y : ℚ) :
    (∀ m, ev (preprocess eqStr) x (some y) = Except.error m →
        parseEquationViz ev eqStr x y = 0) ∧
    (ev (preprocess eqStr) x (some y) = Except.ok none →
        parseEquationViz ev eqStr x y = 0) := by
  unfold parseEquationViz
  constructor
  · intro m hm
    split
    · rfl
    · split
      · rfl
      · rw [hm]
  · intro hm
    split
    · rfl
    · split
      · rfl
      · rw [hm]

/-- **C1** (witness) The amended theorem at a concrete failing input: the
evaluator raise on the malformed `dy/dx = x +` is mapped to slope 0 by the
visualization compiler. -/
theorem parseEquationViz_maps_failure_to_zero_inst :
    parseEquationViz evalRaise eqMalformed 0 0 = 0 :=
  (parseEquationViz_maps_failure_to_zero evalRaise eqMalformed 0 0).1 parseErrMsg rfl

/-- **C1** (counterexample) The claim is false for the solver-mode compiler: on
the malformed equation `dy/dx = x +` its compiled function propagates the
evaluator exception instead of returning the sentinel slope 0 — in the
embedding, it returns `Except.error` rather than a number. -/
theorem parseEquationSolver_raises_on_malformed :
    parseEquationSolver evalRaise eqMalformed 0 (some 0) = Except.error parseErrMsg := rfl

/-- **C3** (amended) The singularity guard of the visualization-mode compiled
function: whenever the processed expression text contains the marker `/y` and
`|y| < 1e-10`, or contains `/x` and `|x| < 1e-10`, the compiled function returns
slope 0 — for every evaluator whatsoever, which expresses that the evaluator is
not invoked.  The solver-mode compiler has no such guard (see the
counterexample). -/
theorem parseEquationViz_singularity_guard (ev : Evaluator) (eqStr : String) (x y : ℚ)
    (hg : (strIncludes (preprocess eqStr) slashY = true ∧ |y| < numEps) ∨
          (strIncludes (preprocess eqStr) slashX = true ∧ |x| < numEps)) :
    parseEquationViz ev eqStr x y = 0 := by
  unfold parseEquationViz
  rcases hg with ⟨hc, hv⟩ | ⟨hc, hv⟩
  · rw [if_pos ⟨hv, hc⟩]
  · split
    · rfl
    · rw [if_pos ⟨hv, hc⟩]

/-- **C3** (witness) The guard at a concrete input: the equation `dy/dx = y/x`
(processed text `y/x`, which contains `/x`) queried at `x = 0`, `|x| < 1e-10`,
yields slope 0 under the division evaluator. -/
theorem parseEquationViz_singularity_guard_inst :
    parseEquationViz evalYdivX eqYdivX 0 1 = 0 :=
  parseEquationViz_singularity_guard evalYdivX eqYdivX 0 1
    (Or.inr ⟨by decide, by rw [abs_zero]; unfold numEps; norm_num⟩)

/-- **C3** (counterexample) The claim is false for the solver-mode compiler: on
`dy/dx = y/x` at `(x, y) = (0, 1)` it forwards the division-by-zero outcome of
the evaluator — a non-finite value, not the slope 0 required by the claim. -/
theorem parseEquationSolver_no_singularity_guard :
    parseEquationSolver evalYdivX eqYdivX 0 (some 1) ≠ Except.ok (some 0) := by
  have h0 : parseEquationSolver evalYdivX eqYdivX 0 (some 1) = Except.ok none := by
    show evalYdivX (preprocess eqYdivX) 0 (some 1) = Except.ok none
    unfold evalYdivX
    rw [if_pos rfl]
  rw [h0]
  simp

/-- If the evaluator raises at the very first stage of the very first step, the
whole solver integration raises with that message (the budget of `rungeKutta4`
is a successor by construction, so the first iteration is always attempted). -/
theorem rungeKutta4_error_first (f : ℚ → JsNum → Except String JsNum)
    (x0 : ℚ) (y0 : JsNum) (h xEnd : ℚ) (msg : String)
    (hx : x0 < xEnd) (hf : f x0 y0 = Except.error msg) :
    rungeKutta4 f x0 y0 h xEnd = Except.error msg := by
  unfold rungeKutta4 rk4Fuel
  rw [rk4Loop, if_pos hx]
  unfold rk4Step
  rw [hf]

/-- **C7** (amended) When the equation is non-empty and the evaluator raises
during integration, the solver session ends with a step log that is exactly the
single terminal error entry carrying the underlying message — but the
`solution` trajectory is left unchanged from before the call (the success-path
assignment is never reached), so previously computed stale points remain; the
trajectory is empty only if it was empty before. -/
theorem solveEquation_error_keeps_solution (ev : Evaluator) (eq : String)
    (x0 y0 h xEnd : ℚ) (st : SolverState) (msg : String)
    (hne : ¬ strTrim eq = emptyStr)
    (herr : rungeKutta4 (parseEquationSolver ev eq) x0 (some y0) h xEnd =
      Except.error msg) :
    solveEquation ev eq x0 y0 h xEnd st =
      { solution := st.solution, solutionSteps := [errorStep msg] } := by
  unfold solveEquation
  rw [if_neg hne, herr]

/-- **C7** (witness) The amended theorem at a concrete input: solving the
malformed `dy/dx = x +` (whose evaluation raises at the first query) from a
session that already holds a one-point trajectory keeps that stale trajectory
and logs exactly the single error step. -/
theorem solveEquation_error_keeps_solution_inst :
    solveEquation evalRaise eqMalformed 0 1 (1/10) 2 stPrev =
      { solution := stPrev.solution, solutionSteps := [errorStep parseErrMsg] } :=
  solveEquation_error_keeps_solution evalRaise eqMalformed 0 1 (1/10) 2 stPrev parseErrMsg
    (by decide)
    (rungeKutta4_error_first (parseEquationSolver evalRaise eqMalformed) 0 (some 1)
      (1/10) 2 parseErrMsg (by norm_num) rfl)

/-- **C7** (counterexample) The claim that the resulting trajectory is empty is
false at a concrete input: after solving the malformed `dy/dx = x +` from a
session whose previous solve left one point, the trajectory still holds that
stale point. -/
theorem solveEquation_error_stale_solution :
    (solveEquation evalRaise eqMalformed 0 1 (1/10) 2 stPrev).solution ≠ [] := by
  have h1 : solveEquation evalRaise eqMalformed 0 1 (1/10) 2 stPrev =
      { solution := stPrev.solution, solutionSteps := [errorStep parseErrMsg] } := by
    unfold solveEquation
    rw [if_neg (by decide),
      rungeKutta4_error_first (parseEquationSolver evalRaise eqMalformed) 0 (some 1)
        (1/10) 2 parseErrMsg (by norm_num) rfl]
  rw [h1]
  unfold stPrev
  simp

/-- A successful solver Runge-Kutta step always moves the x-coordinate by
exactly `h`. -/
theorem rk4Step_fst (f : ℚ → JsNum → Except String JsNum) (h x : ℚ) (y : JsNum)
    (x2 : ℚ) (y2 : JsNum) (hs : rk4Step f h x y = Except.ok (x2, y2)) : x2 = x + h := by
  unfold rk4Step at hs
  cases hv1 : f x y with
  | error m => rw [hv1] at hs; exact Except.noConfusion hs
  | ok v1 =>
    rw [hv1] at hs
    dsimp only at hs
    cases hv2 : f (x + h / 2) (jadd y (jdivBy (jscale h v1) 2)) with
    | error m => rw [hv2] at hs; exact Except.noConfusion hs
    | ok v2 =>
      rw [hv2] at hs
      dsimp only at hs
      cases hv3 : f (x + h / 2) (jadd y (jdivBy (jscale h v2) 2)) with
      | error m => rw [hv3] at hs; exact Except.noConfusion hs
      | ok v3 =>
        rw [hv3] at hs
        dsimp only at hs
        cases hv4 : f (x + h) (jadd y (jscale h v3)) with
        | error m => rw [hv4] at hs; exact Except.noConfusion hs
        | ok v4 =>
          rw [hv4] at hs
          dsimp only at hs
          simp only [Except.ok.injEq, Prod.mk.injEq] at hs
          exact hs.1.symm

/-- Unfolding lemma: an iteration whose `while` condition fails emits nothing. -/
theorem rk4Loop_succ_stop (f : ℚ → JsNum → Except String JsNum) (h xEnd : ℚ) (n : ℕ)
    (x : ℚ) (y : JsNum) (hx : ¬ x < xEnd) :
    rk4Loop f h xEnd (n + 1) x y = Except.ok [] := by
  rw [rk4Loop, if_neg hx]

/-- Unfolding lemma: an iteration whose `while` condition holds and whose step
and continuation both succeed pushes the stepped point. -/
theorem rk4Loop_succ_step (f : ℚ → JsNum → Except String JsNum) (h xEnd : ℚ) (n : ℕ)
    (x : ℚ) (y : JsNum) (x2 : ℚ) (y2 : JsNum) (rest : List (ℚ × JsNum))
    (hx : x < xEnd) (hs : rk4Step f h x y = Except.ok (x2, y2))
    (hr : rk4Loop f h xEnd n x2 y2 = Except.ok rest) :
    rk4Loop f h xEnd (n + 1) x y = Except.ok ((x2, y2) :: rest) := by
  rw [rk4Loop, if_pos hx, hs]
  dsimp only
  rw [hr]

/-- The invariant of the solver loop for positive step size: with enough budget
(more than the remaining distance measured in steps), a successful run is empty
iff the `while` condition already failed, and otherwise its final point is the
first one at or past `xEnd`, overshooting by strictly less than one step. -/
theorem rk4Loop_spec (f : ℚ → JsNum → Except String JsNum) (h xEnd : ℚ) (hh : 0 < h) :
    ∀ (n : ℕ) (x : ℚ) (y : JsNum) (res : List (ℚ × JsNum)),
      (xEnd - x) / h < (n : ℚ) →
      rk4Loop f h xEnd n x y = Except.ok res →
      (xEnd ≤ x → res = []) ∧
      (x < xEnd → ∃ p, res.getLast? = some p ∧ xEnd ≤ p.1 ∧ p.1 < xEnd + h) := by
  intro n
  induction n with
  | zero =>
    intro x y res hfu hok
    have hx : xEnd < x := by
      have h0 : xEnd - x < 0 * h := (div_lt_iff hh).mp (by simpa using hfu)
      linarith
    refine ⟨fun _ => ?_, fun hlt => absurd hlt (by linarith)⟩
    unfold rk4Loop at hok
    injection hok with hok
    exact hok.symm
  | succ n ih =>
    intro x y res hfu hok
    by_cases hx : x < xEnd
    case neg =>
      rw [rk4Loop_succ_stop f h xEnd n x y hx] at hok
      injection hok with hok
      exact ⟨fun _ => hok.symm, fun hlt => absurd hlt hx⟩
    case pos =>
      rw [rk4Loop, if_pos hx] at hok
      cases hs : rk4Step f h x y with
      | error m => rw [hs] at hok; exact Except.noConfusion hok
      | ok p =>
        obtain ⟨x2, y2⟩ := p
        rw [hs] at hok
        dsimp only at hok
        have hx2 : x2 = x + h := rk4Step_fst f h x y x2 y2 hs
        cases hr : rk4Loop f h xEnd n x2 y2 with
        | error m => rw [hr] at hok; exact Except.noConfusion hok
        | ok rest =>
          rw [hr] at hok
          dsimp only at hok
          injection hok with hok
          subst hok
          have hfu2 : (xEnd - x2) / h < (n : ℚ) := by
            have heq : (xEnd - x2) / h = (xEnd - x) / h - 1 := by
              rw [hx2]
              field_simp
              ring
            push_cast at hfu
            rw [heq]
            linarith
          have IH := ih x2 y2 rest hfu2 hr
          refine ⟨fun hge => absurd hx (by linarith), fun _ => ?_⟩
          cases rest with
          | nil =>
            refine ⟨(x2, y2), rfl, ?_, ?_⟩
            · by_contra hlt2
              push_neg at hlt2
              obtain ⟨p, hp, _⟩ := IH.2 hlt2
              exact Option.noConfusion hp
            · dsimp only
              rw [hx2]
              linarith
          | cons q qs =>
            have hx2lt : x2 < xEnd := by
              by_contra hge2
              push_neg at hge2
              have := IH.1 hge2
              exact List.noConfusion this
            obtain ⟨p, hp, h1, h2⟩ := IH.2 hx2lt
            refine ⟨p, ?_, h1, h2⟩
            rw [List.getLast?_cons_cons]
            exact hp

/-- **C10** In bounded-interval (solver) mode with a positive step size, a
successful run from `x0` with end `xEnd` behaves as follows: if `xEnd ≤ x0` the
returned trajectory is exactly the seed point alone, and if `x0 < xEnd` the last
point overshoots `xEnd` by strictly less than one full step:
`xEnd ≤ x_last < xEnd + h`. -/
theorem rungeKutta4_reaches_xEnd (f : ℚ → JsNum → Except String JsNum)
    (x0 : ℚ) (y0 : JsNum) (h xEnd : ℚ) (hh : 0 < h) (tr : List (ℚ × JsNum))
    (htr : rungeKutta4 f x0 y0 h xEnd = Except.ok tr) :
    (xEnd ≤ x0 → tr = [(x0, y0)]) ∧
    (x0 < xEnd → ∃ p, tr.getLast? = some p ∧ xEnd ≤ p.1 ∧ p.1 < xEnd + h) := by
  unfold rungeKutta4 at htr
  cases hk : rk4Loop f h xEnd (rk4Fuel x0 h xEnd) x0 y0 with
  | error m => rw [hk] at htr; exact Except.noConfusion htr
  | ok pts =>
    rw [hk] at htr
    dsimp only at htr
    injection htr with htr
    subst htr
    have hfu : (xEnd - x0) / h < ((rk4Fuel x0 h xEnd : ℕ) : ℚ) := by
      unfold rk4Fuel
      push_cast
      have := Nat.le_ceil ((xEnd - x0) / h)
      linarith
    have SPEC := rk4Loop_spec f h xEnd hh (rk4Fuel x0 h xEnd) x0 y0 pts hfu hk
    constructor
    · intro hge
      rw [SPEC.1 hge]
    · intro hlt
      obtain ⟨p, hp, h1, h2⟩ := SPEC.2 hlt
      cases pts with
      | nil => exact Option.noConfusion hp
      | cons q qs =>
        refine ⟨p, ?_, h1, h2⟩
        rw [List.getLast?_cons_cons]
        exact hp

/-- Under the constant-zero solver slope function every Runge-Kutta step moves
`x` by `h` and leaves `y` unchanged. -/
theorem rk4Step_zeroSlopeSolver (h x c : ℚ) :
    rk4Step zeroSlopeSolver h x (some c) = Except.ok (x + h, some c) := by
  unfold rk4Step zeroSlopeSolver
  simp [jscale, jadd, jdivBy]

/-- The concrete solver run behind the C10 witness: from `x0 = 0` to
`xEnd = 1/4` with `h = 1/4` under the zero slope function, one step is taken. -/
theorem rungeKutta4_zero_run :
    rungeKutta4 zeroSlopeSolver 0 (some 1) (1/4) (1/4) =
      Except.ok [(0, some 1), (0 + 1/4, some 1)] := by
  have hfuel : rk4Fuel 0 (1/4) (1/4) = 1 + 1 := by
    unfold rk4Fuel
    rw [show ((1:ℚ)/4 - 0) / (1/4) = 1 by norm_num, Nat.ceil_one]
  have hloop2 : rk4Loop zeroSlopeSolver (1/4) (1/4) 1 (0 + 1/4) (some 1) =
      Except.ok [] := by
    rw [show (1 : ℕ) = 0 + 1 from rfl]
    exact rk4Loop_succ_stop zeroSlopeSolver (1/4) (1/4) 0 (0 + 1/4) (some 1) (by norm_num)
  unfold rungeKutta4
  rw [hfuel, rk4Loop_succ_step zeroSlopeSolver (1/4) (1/4) 1 0 (some 1) (0 + 1/4) (some 1) []
    (by norm_num) (rk4Step_zeroSlopeSolver (1/4) 0 1) hloop2]

/-- **C10** (witness) The theorem at a concrete run: integrating from `0` to
`xEnd = 1/4` with `h = 1/4`, the last point has `1/4 ≤ x_last < 1/4 + 1/4`. -/
theorem rungeKutta4_reaches_xEnd_inst :
    ∃ p, ([((0 : ℚ), (some 1 : JsNum)), (0 + 1/4, some 1)]).getLast? = some p ∧
      (1/4 : ℚ) ≤ p.1 ∧ p.1 < 1/4 + 1/4 :=
  (rungeKutta4_reaches_xEnd zeroSlopeSolver 0 (some 1) (1/4) (1/4) (by norm_num)
    [((0 : ℚ), (some 1 : JsNum)), (0 + 1/4, some 1)] rungeKutta4_zero_run).2 (by norm_num)

/-- Filtering with an everywhere-successful function is a plain map. -/
theorem filterMap_some_comp {α β : Type} (g : α → β) (l : List α) :
    l.filterMap (fun a => some (g a)) = l.map g := by
  induction l with
  | nil => rfl
  | cons a l ih => simp [List.filterMap_cons, ih]

/-- **C9** In visualization mode the non-finite skip branch of the field
sampling loop is unreachable: the compiled slope function returns a finite
number at every grid point, so the sampled field equals the gap-free sampling of
the full grid — every in-range grid point emits a triple, for every evaluator,
equation, bounds and density. -/
theorem sampleField_viz_no_gaps (ev : Evaluator) (eqStr : String) (b : Bounds)
    (gridDensity : ℕ) :
    sampleField (fun x y => some (parseEquationViz ev eqStr x y)) b gridDensity =
      sampleFieldNoGaps (parseEquationViz ev eqStr) b gridDensity := by
  unfold sampleField sampleFieldNoGaps
  dsimp only
  congr 1
  funext x
  simp only [Option.map_some']
  exact filterMap_some_comp _ _

/-- Unfolding lemma for the axis loop: in-range value, emit and advance. -/
theorem axisSamples_succ_le (hi step : ℚ) (n : ℕ) (v : ℚ) (hv : v ≤ hi) :
    axisSamples hi step (n + 1) v = v :: axisSamples hi step n (v + step) := by
  rw [axisSamples, if_pos hv]

/-- Unfolding lemma for the axis loop: out-of-range value, stop. -/
theorem axisSamples_succ_gt (hi step : ℚ) (n : ℕ) (v : ℚ) (hv : ¬ v ≤ hi) :
    axisSamples hi step (n + 1) v = [] := by
  rw [axisSamples, if_neg hv]

/-- Exact length of the inclusive axis loop for a positive step, given enough
budget: `⌊(hi - v)/step⌋ + 1` values when the start is in range, none
otherwise. -/
theorem axisSamples_length_exact (hi step : ℚ) (hstep : 0 < step) :
    ∀ (n : ℕ) (v : ℚ), (hi - v) / step < (n : ℚ) →
      (axisSamples hi step n v).length =
        if v ≤ hi then (⌊(hi - v) / step⌋ + 1).toNat else 0 := by
  have hne : step ≠ 0 := ne_of_gt hstep
  intro n
  induction n with
  | zero =>
    intro v hfu
    have hv : ¬ v ≤ hi := by
      have h0 : hi - v < 0 * step := (div_lt_iff hstep).mp (by simpa using hfu)
      push_neg
      linarith
    rw [if_neg hv]
    simp [axisSamples]
  | succ n ih =>
    intro v hfu
    by_cases hv : v ≤ hi
    · rw [if_pos hv, axisSamples_succ_le hi step n v hv, List.length_cons]
      have heq : (hi - (v + step)) / step = (hi - v) / step - 1 := by
        field_simp
        ring
      have hfu2 : (hi - (v + step)) / step < (n : ℚ) := by
        push_cast at hfu
        rw [heq]
        linarith
      rw [ih (v + step) hfu2]
      by_cases hv2 : v + step ≤ hi
      · rw [if_pos hv2]
        have hge : (1 : ℚ) ≤ (hi - v) / step := by
          rw [le_div_iff hstep]
          linarith
        have hfl : 1 ≤ ⌊(hi - v) / step⌋ := by
          rw [Int.le_floor]
          exact_mod_cast hge
        have heq2 : ⌊(hi - (v + step)) / step⌋ = ⌊(hi - v) / step⌋ - 1 := by
          rw [heq, Int.floor_sub_one]
        rw [heq2]
        omega
      · rw [if_neg hv2]
        have h1 : (hi - v) / step < 1 := by
          rw [div_lt_one hstep]
          push_neg at hv2
          linarith
        have h0 : (0 : ℚ) ≤ (hi - v) / step := div_nonneg (by linarith) (le_of_lt hstep)
        have hfl0 : ⌊(hi - v) / step⌋ = 0 := Int.floor_eq_zero_iff.mpr ⟨h0, h1⟩
        rw [hfl0]
        omega
    · rw [if_neg hv, axisSamples_succ_gt hi step n v hv]
      rfl

/-- With the spacing `(hi - lo)/d` computed by `drawSlopeField`, the inclusive
axis loop visits exactly `d + 1` evenly spaced values. -/
theorem axisSamples_grid_length (lo hi : ℚ) (d : ℕ) (hd : 0 < d) (hlt : lo < hi) :
    (axisSamples hi ((hi - lo) / (d : ℚ)) (d + 2) lo).length = d + 1 := by
  have hdq : (0 : ℚ) < (d : ℚ) := by exact_mod_cast hd
  have ha : hi - lo ≠ 0 := by linarith
  have hstep : 0 < (hi - lo) / (d : ℚ) := div_pos (by linarith) hdq
  have hq : (hi - lo) / ((hi - lo) / (d : ℚ)) = (d : ℚ) := by
    rw [div_div_eq_mul_div, mul_comm, mul_div_assoc, div_self ha, mul_one]
  have hfu : (hi - lo) / ((hi - lo) / (d : ℚ)) < ((d + 2 : ℕ) : ℚ) := by
    rw [hq]
    push_cast
    linarith
  rw [axisSamples_length_exact hi ((hi - lo) / (d : ℚ)) hstep (d + 2) lo hfu,
      if_pos (le_of_lt hlt), hq, Int.floor_natCast]
  omega

/-- With an everywhere-finite slope function the sampled field contains exactly
`(d + 1) × (d + 1)` triples: `d + 1` values per axis, one triple per grid
point. -/
theorem sampleField_total_length (g : ℚ → ℚ → ℚ) (b : Bounds) (d : ℕ)
    (hd : 0 < d) (hx : b.xMin < b.xMax) (hy : b.yMin < b.yMax) :
    (sampleField (fun x y => some (g x y)) b d).length = (d + 1) * (d + 1) := by
  unfold sampleField
  dsimp only
  have hys := axisSamples_grid_length b.yMin b.yMax d hd hy
  have hxs := axisSamples_grid_length b.xMin b.xMax d hd hx
  rw [List.length_flatMap]
  simp only [Function.comp_def]
  have hmap : (axisSamples b.xMax ((b.xMax - b.xMin) / (d : ℚ)) (d + 2) b.xMin).map
        (fun x => (List.filterMap
          (fun y => Option.map (fun s => (x, y, s)) (some (g x y)))
          (axisSamples b.yMax ((b.yMax - b.yMin) / (d : ℚ)) (d + 2) b.yMin)).length) =
      (axisSamples b.xMax ((b.xMax - b.xMin) / (d : ℚ)) (d + 2) b.xMin).map
        (Function.const ℚ (d + 1)) := by
    apply List.map_congr_left
    intro x _
    simp only [Option.map_some']
    rw [filterMap_some_comp (fun y => (x, y, g x y))]
    rw [List.length_map]
    exact hys
  rw [hmap, List.map_const, List.sum_replicate, smul_eq_mul, hxs]

/-- Every triple emitted for an everywhere-finite slope function carries the
slope value of the function at its own grid coordinates. -/
theorem sampleField_total_mem (g : ℚ → ℚ → ℚ) (b : Bounds) (d : ℕ) :
    ∀ t ∈ sampleField (fun x y => some (g x y)) b d, t.2.2 = g t.1 t.2.1 := by
  intro t ht
  unfold sampleField at ht
  simp only [List.mem_flatMap, List.mem_filterMap, Option.map_some',
    Option.some.injEq] at ht
  obtain ⟨x, hx, y, hy, hteq⟩ := ht
  rw [← hteq]

/-- The compiled visualization slope function for `dy/dx = x + y` computes
`x + y` at every point: the processed text `x + y` contains neither `/y` nor
`/x`, so the guard never fires, and the evaluator result is finite. -/
theorem parseEquationViz_addXY (a c : ℚ) :
    parseEquationViz evalAddXY eqAddXY a c = a + c := by
  have hsy : strIncludes (preprocess eqAddXY) slashY = false := by decide
  have hsx : strIncludes (preprocess eqAddXY) slashX = false := by decide
  unfold parseEquationViz evalAddXY
  simp [hsy, hsx, jadd]

/-- **C5** (amended) The sampling loops are inclusive on both ends with spacing
`(max - min)/gridDensity`, so field sampling produces an evenly spaced grid of
`(gridDensity + 1) × (gridDensity + 1)` points spanning the bounds — not
`gridDensity × gridDensity`.  Concretely, for `gridDensity = 3` on the default
bounds with `dy/dx = x + y` it yields exactly `16` triples with no skips, and
every triple carries slope equal to the sum of its own grid coordinates. -/
theorem sampleField_inclusive_grid :
    (∀ (g : ℚ → ℚ → ℚ) (b : Bounds) (d : ℕ), 0 < d → b.xMin < b.xMax →
        b.yMin < b.yMax →
        (sampleField (fun x y => some (g x y)) b d).length = (d + 1) * (d + 1)) ∧
    (sampleField addSlope defaultBounds 3).length = 16 ∧
    (∀ t ∈ sampleField addSlope defaultBounds 3, t.2.2 = t.1 + t.2.1) := by
  have hview : sampleField addSlope defaultBounds 3 =
      sampleField (fun x y => some (parseEquationViz evalAddXY eqAddXY x y))
        defaultBounds 3 := rfl
  refine ⟨sampleField_total_length, ?_, ?_⟩
  · rw [hview, sampleField_total_length (parseEquationViz evalAddXY eqAddXY) defaultBounds 3
      (by norm_num) (by unfold defaultBounds; norm_num) (by unfold defaultBounds; norm_num)]
  · intro t ht
    rw [hview] at ht
    have hval := sampleField_total_mem (parseEquationViz evalAddXY eqAddXY)
      defaultBounds 3 t ht
    rw [hval, parseEquationViz_addXY]

/-- **C5** (witness) The general count applied at a concrete input: density 3
over the default bounds with the everywhere-finite slope `x + y` gives
`(3 + 1) × (3 + 1)` triples. -/
theorem sampleField_inclusive_grid_inst :
    (sampleField (fun x y => some (x + y)) defaultBounds 3).length = (3 + 1) * (3 + 1) :=
  sampleField_inclusive_grid.1 (fun x y => x + y) defaultBounds 3 (by norm_num)
    (by unfold defaultBounds; norm_num) (by unfold defaultBounds; norm_num)

/-- **C5** (counterexample) The claim that a `gridDensity = 3` sampling of the
everywhere-finite `dy/dx = x + y` yields exactly `9 = 3 × 3` triples is false:
it yields `16`, because both axis loops are inclusive of both endpoints. -/
theorem sampleField_three_density_not_nine :
    (sampleField addSlope defaultBounds 3).length ≠ 9 := by
  have hview : sampleField addSlope defaultBounds 3 =
      sampleField (fun x y => some (parseEquationViz evalAddXY eqAddXY x y))
        defaultBounds 3 := rfl
  rw [hview, sampleField_total_length (parseEquationViz evalAddXY eqAddXY) defaultBounds 3
    (by norm_num) (by unfold defaultBounds; norm_num) (by unfold defaultBounds; norm_num)]
  norm_num
